import Mathlib

/-!
# Verification of the keyframe-extraction pipeline

A shallow embedding of the shot-segmentation and adaptive keyframe-selection
pipeline of `src/AI-Service/key_frame_extractor_model.py` (class
`KeyFrameExtractor`), together with proofs of its stated properties.

The external collaborators are modelled as function parameters, exactly as the
specification frames them:
* the transition scorer (TransNetV2 + sigmoid) is `scorer : List F → List ℚ`
  (one probability per frame of the chunk it is given);
* the density-based clusterer (HDBSCAN `fit_predict`) is
  `clusterer : List Vec → List ℤ` (one label per feature vector, `-1` = noise);
* the embedding provider (CLIP `get_image_features`) is `embed : F → Vec`;
* video decoding yields the frame list itself; persisting images to disk is a
  `saver` capability returning `Except`.

Frames are an abstract type `F`; per-frame scalars and feature coordinates are
rationals.  `np.linalg.norm` enters the source only through `np.argmin` over
distances, so it is modelled by the squared Euclidean distance `sqDist`, which
has the same argmin (squaring is monotone on nonnegative reals) and keeps every
definition executable.
-/

namespace KFE

/-- A CLIP feature vector (`np.ndarray` of floats, flattened). -/
abbrev Vec := List ℚ

/-- Squared Euclidean distance between two feature vectors.  The source
computes `np.linalg.norm(cluster_features - centroid, axis=1)` and only ever
takes `np.argmin` of the result; the squared distance has the same argmin. -/
def sqDist (u v : Vec) : ℚ :=
  (List.zipWith (fun a b => (a - b) ^ 2) u v).sum

/-- Elementwise sum of two vectors. -/
def vecAdd (u v : Vec) : Vec :=
  List.zipWith (· + ·) u v

/-- `np.mean(vs, axis=0)`: the arithmetic-mean vector of a list of vectors. -/
def npMean (vs : List Vec) : Vec :=
  match vs with
  | [] => []
  | v :: rest => (rest.foldl vecAdd v).map (fun x => x / ((rest.length + 1 : ℕ) : ℚ))

/-- `np.argmin`: the index of the first occurrence of the minimum (0 for an
empty list, on which numpy would raise). -/
def npArgmin : List ℚ → ℕ
  | [] => 0
  | [_] => 0
  | x :: y :: rest =>
      if (y :: rest).getD (npArgmin (y :: rest)) 0 < x then npArgmin (y :: rest) + 1
      else 0

/-- `np.unique`: the sorted list of the distinct values. -/
def npUnique (l : List ℤ) : List ℤ :=
  l.dedup.insertionSort (· ≤ ·)

/-- The positions carrying cluster label `cid`: the source's boolean mask
`labels == cluster_id` / `[i for i, label in enumerate(labels) if label == cluster_id]`. -/
def memberPositions (labels : List ℤ) (cid : ℤ) : List ℕ :=
  (List.range labels.length).filter (fun i => decide (labels.getD i (-1) = cid))

/-- Centroid of cluster `cid`: `np.mean(features[labels == label], axis=0)`. -/
def clusterCentroid (labels : List ℤ) (features : List Vec) (cid : ℤ) : Vec :=
  npMean ((memberPositions labels cid).map (fun i => features.getD i []))

/-- Consecutive chunks of at most `k` elements (the last may be shorter):
the loop `for i in range(0, len(frames), chunk_size)` of
`detect_shot_boundaries`.  For `k = 0` the Python loop raises; here it yields
no chunks. -/
def chunksOf {α : Type} (k : ℕ) (l : List α) : List (List α) :=
  if h : k = 0 ∨ l.length = 0 then []
  else l.take k :: chunksOf k (l.drop k)
termination_by l.length
decreasing_by
  push_neg at h
  have h0 : 0 < k := Nat.pos_of_ne_zero h.1
  have h1 : 0 < l.length := Nat.pos_of_ne_zero h.2
  simpa using Nat.sub_lt h1 h0

/-- Python's slice `l[s:e]` for natural bounds (clamped, never raising). -/
def pySlice {α : Type} (l : List α) (s e : ℕ) : List α :=
  (l.drop s).take (e - s)

/-- Thresholding a probability series into boundary indices: the loop
`for i, prob in enumerate(predictions): if prob > threshold: append(i)`. -/
def boundariesOf (threshold : ℚ) (predictions : List ℚ) : List ℕ :=
  (List.range predictions.length).filter (fun i => decide (threshold < predictions.getD i 0))

/-- `detect_shot_boundaries`: empty input short-circuits to `([], [])`;
otherwise the frame sequence is chunked, each chunk scored by the external
scorer, the per-chunk scores concatenated in order and thresholded. -/
def detect_shot_boundaries {F : Type} (scorer : List F → List ℚ) (frames : List F)
    (threshold : ℚ) (chunk_size : ℕ) : List ℕ × List ℚ :=
  if frames.length = 0 then ([], [])
  else
    let predictions := ((chunksOf chunk_size frames).map scorer).flatten
    (boundariesOf threshold predictions, predictions)

/-- `adaptive_clustering`: below `min_cluster_size` frames, or when the
clusterer labels everything noise, return all-zero labels with the features
themselves in the centroid slot; otherwise return the clusterer's labels with
one mean vector per distinct non-noise label. -/
def adaptive_clustering (clusterer : List Vec → List ℤ) (features : List Vec)
    (min_cluster_size : ℕ) : List ℤ × List Vec :=
  let n := features.length
  if n < min_cluster_size then (List.replicate n 0, features)
  else
    let labels := clusterer features
    if labels.all (fun lab => decide (lab = -1)) then (List.replicate n 0, features)
    else
      let uniqueLabels := npUnique (labels.filter (fun lab => decide (lab ≠ -1)))
      let centroids := uniqueLabels.map (fun lab => clusterCentroid labels features lab)
      (labels, if 0 < centroids.length then centroids else features)

/-- `select_keyframes`: single-representative shortcut, all-noise fallback, or
one nearest-to-centroid member per non-noise cluster, sorted ascending.
`shot_frames` is kept, unused, as in the source; `min_cluster_size` is the
source's default 60. -/
def select_keyframes {F : Type} (clusterer : List Vec → List ℤ) (shot_frames : List F)
    (shot_features : List Vec) (shot_indices : List ℕ) : List ℕ :=
  let lc := adaptive_clustering clusterer shot_features 60
  let labels := lc.1
  let centroids := lc.2
  if shot_features.length = 1 ∨
      (centroids.length = 1 ∧ labels.all (fun lab => decide (lab ≠ -1))) then
    [shot_indices.headI]
  else
    let uniqueLabels := npUnique (labels.filter (fun lab => decide (lab ≠ -1)))
    if uniqueLabels = [] then [shot_indices.headI]
    else
      let picks := uniqueLabels.map (fun cid =>
        let clusterIndices := memberPositions labels cid
        let clusterFeatures := clusterIndices.map (fun i => shot_features.getD i [])
        let centroid := centroids.getD (uniqueLabels.indexOf cid) []
        let distances := clusterFeatures.map (fun f => sqDist f centroid)
        let closest := clusterIndices.getD (npArgmin distances) 0
        shot_indices.getD closest 0)
      picks.insertionSort (· ≤ ·)

/-- The shot segmenter: `[0] + boundaries + [total]` paired into consecutive
half-open ranges (`extract_keyframes`, line 225 and the loop bounds). -/
def shotRanges (boundaries : List ℕ) (total : ℕ) : List (ℕ × ℕ) :=
  let bl := 0 :: boundaries ++ [total]
  bl.zip bl.tail

/-- One iteration of the shot loop of `extract_keyframes`: slice the shot out
of the full-resolution stream, skip it if empty, otherwise embed each frame
and select keyframes. -/
def shotKeyframes {F : Type} (clusterer : List Vec → List ℤ) (embed : F → Vec)
    (frames : List F) (se : ℕ × ℕ) : List ℕ :=
  let shot_frames := pySlice frames se.1 se.2
  let shot_indices := pySlice (List.range frames.length) se.1 se.2
  if shot_frames.length = 0 then []
  else select_keyframes clusterer shot_frames (shot_frames.map embed) shot_indices

/-- `extract_keyframes`: segment by the boundaries, process every non-empty
shot, concatenate and sort the selected indices. -/
def extract_keyframes {F : Type} (clusterer : List Vec → List ℤ) (embed : F → Vec)
    (frames : List F) (shot_boundaries : List ℕ) : List ℕ :=
  (((shotRanges shot_boundaries frames.length).map
      (shotKeyframes clusterer embed frames)).flatten).insertionSort (· ≤ ·)

/-- The JSON payload `KeyFrameExtractionResponse` returned by `__call__`. -/
structure Response where
  status : String
  shot_boundaries : Option (List ℕ)
  keyframes : Option (List ℕ)
  message : Option String
deriving DecidableEq

/-- `detect_shot_boundaries` with a fallible scorer: a scorer failure on any
chunk fails the whole detection. -/
def detectE {F : Type} (scorer : List F → Except String (List ℚ)) (frames : List F)
    (threshold : ℚ) (chunk_size : ℕ) : Except String (List ℕ × List ℚ) :=
  if frames.length = 0 then .ok ([], [])
  else
    ((chunksOf chunk_size frames).mapM scorer).map (fun chunkScores =>
      let predictions := chunkScores.flatten
      (boundariesOf threshold predictions, predictions))

/-- `extract_keyframes` with a fallible embedding provider: an embedding
failure on any frame of any shot fails the whole extraction.  Empty shots are
skipped before the provider is ever invoked. -/
def extractE {F : Type} (clusterer : List Vec → List ℤ) (embed : F → Except String Vec)
    (frames : List F) (shot_boundaries : List ℕ) : Except String (List ℕ) :=
  ((shotRanges shot_boundaries frames.length).mapM (fun se =>
    let shot_frames := pySlice frames se.1 se.2
    let shot_indices := pySlice (List.range frames.length) se.1 se.2
    if shot_frames.length = 0 then .ok []
    else (shot_frames.mapM embed).map (fun feats =>
      select_keyframes clusterer shot_frames feats shot_indices))).map
    (fun contribs => contribs.flatten.insertionSort (· ≤ ·))

/-- The optional side-output step of `__call__`: when an output directory is
supplied, persist boundary frames and keyframes (each write may fail). -/
def saveStep (saver : String → List ℕ → Except String Unit)
    (output_directory : Option String) (bs kfs : List ℕ) : Except String Unit :=
  match output_directory with
  | some dir =>
      (saver (dir ++ "/boundary_frames") bs).bind (fun _ => saver (dir ++ "/keyframes") kfs)
  | none => .ok ()

/-- `KeyFrameExtractor.__call__`: run detection then extraction (with the
source's default `threshold=0.5`, `chunk_size=32`), optionally persist the
side outputs, and convert any failure anywhere in the `try` block into the
structured error payload. -/
def handleRequest {F : Type} (scorer : List F → Except String (List ℚ))
    (embed : F → Except String Vec) (clusterer : List Vec → List ℤ)
    (saver : String → List ℕ → Except String Unit)
    (video : Except String (List F)) (output_directory : Option String) : Response :=
  match video.bind (fun frames =>
      (detectE scorer frames (1 / 2) 32).bind (fun det =>
        (extractE clusterer embed frames det.1).bind (fun kfs =>
          (saveStep saver output_directory det.1 kfs).map (fun _ => (det.1, kfs))))) with
  | .ok p => ⟨"success", some p.1, some p.2, none⟩
  | .error e => ⟨"error", none, none, some e⟩

/-- Scoring the whole sequence in a single scorer invocation, as the
specification's chunking-irrelevance clause describes it.  Modelled from the
spec: "it must not change results relative to scoring the whole sequence at
once". -/
def detectWholeSpec {F : Type} (scorer : List F → List ℚ) (frames : List F)
    (threshold : ℚ) : List ℕ × List ℚ :=
  (boundariesOf threshold (scorer frames), scorer frames)

/-- The claim-side characterization for C3: position `j` is a member of
cluster `cid` whose feature vector is nearest the cluster centroid, ties
broken by the lowest position. -/
def isClosestMember (labels : List ℤ) (feats : List Vec) (cid : ℤ) (j : ℕ) : Prop :=
  j < labels.length ∧ labels.getD j (-1) = cid ∧
    ∀ j2, j2 < labels.length → labels.getD j2 (-1) = cid →
      sqDist (feats.getD j []) (clusterCentroid labels feats cid) ≤
        sqDist (feats.getD j2 []) (clusterCentroid labels feats cid) ∧
      (sqDist (feats.getD j []) (clusterCentroid labels feats cid) =
          sqDist (feats.getD j2 []) (clusterCentroid labels feats cid) → j ≤ j2)

/-! ## Basic facts about the numeric helpers -/

theorem sqDist_cons (a b : ℚ) (u v : Vec) :
    sqDist (a :: u) (b :: v) = (a - b) ^ 2 + sqDist u v := by
  simp [sqDist]

theorem sqDist_nonneg (u v : Vec) : 0 ≤ sqDist u v := by
  induction u generalizing v with
  | nil => simp [sqDist]
  | cons a u ih =>
      cases v with
      | nil => simp [sqDist]
      | cons b v =>
          rw [sqDist_cons]
          exact add_nonneg (sq_nonneg _) (ih v)

theorem sqDist_self (v : Vec) : sqDist v v = 0 := by
  induction v with
  | nil => simp [sqDist]
  | cons a u ih => rw [sqDist_cons, ih]; ring

theorem npArgmin_lt_length (l : List ℚ) (h : l ≠ []) : npArgmin l < l.length := by
  induction l with
  | nil => simp at h
  | cons x t ih =>
      cases t with
      | nil => simp [npArgmin]
      | cons y rest =>
          rw [npArgmin]
          split
          · have := ih (by simp)
            simpa using Nat.succ_lt_succ this
          · simp

theorem npArgmin_le (l : List ℚ) (i : ℕ) (hi : i < l.length) :
    l.getD (npArgmin l) 0 ≤ l.getD i 0 := by
  induction l generalizing i with
  | nil => simp at hi
  | cons x t ih =>
      cases t with
      | nil =>
          have h0 : i = 0 := by simp at hi; omega
          subst h0
          simp [npArgmin]
      | cons y rest =>
          rw [npArgmin]
          split
          · rename_i hlt
            cases i with
            | zero =>
                simpa using le_of_lt hlt
            | succ j =>
                simpa using ih j (by simpa using hi)
          · rename_i hge
            push_neg at hge
            cases i with
            | zero => simp
            | succ j =>
                have hj : j < (y :: rest).length := by simpa using hi
                have h2 := ih j hj
                have h3 := le_trans hge h2
                simpa using h3

theorem npArgmin_first (l : List ℚ) (i : ℕ) (hi : i < npArgmin l) :
    l.getD (npArgmin l) 0 < l.getD i 0 := by
  induction l generalizing i with
  | nil => simp [npArgmin] at hi
  | cons x t ih =>
      cases t with
      | nil => simp [npArgmin] at hi
      | cons y rest =>
          rw [npArgmin] at hi ⊢
          split
          · rename_i hlt
            cases i with
            | zero => simpa using hlt
            | succ j =>
                rw [if_pos hlt] at hi
                have hj : j < npArgmin (y :: rest) := by omega
                simpa using ih j hj
          · rename_i hge
            rw [if_neg hge] at hi
            omega

theorem npArgmin_eq_zero (l : List ℚ) (h : ∀ i, i < l.length → l.getD 0 0 ≤ l.getD i 0) :
    npArgmin l = 0 := by
  by_contra hne
  have hpos : 0 < npArgmin l := Nat.pos_of_ne_zero hne
  have hlt := npArgmin_first l 0 hpos
  have hnil : l ≠ [] := by
    intro hl; rw [hl] at hne; simp [npArgmin] at hne
  have hlen := npArgmin_lt_length l hnil
  have := h (npArgmin l) hlen
  exact absurd (lt_of_le_of_lt this hlt) (lt_irrefl _)

/-! ## npUnique and memberPositions -/

theorem mem_npUnique (a : ℤ) (l : List ℤ) : a ∈ npUnique l ↔ a ∈ l := by
  unfold npUnique
  rw [List.mem_insertionSort, List.mem_dedup]

theorem npUnique_nodup (l : List ℤ) : (npUnique l).Nodup := by
  unfold npUnique
  exact ((List.perm_insertionSort _ _).nodup_iff).mpr (List.nodup_dedup l)

theorem npUnique_ne_nil (l : List ℤ) (h : l ≠ []) : npUnique l ≠ [] := by
  obtain ⟨a, ha⟩ := List.exists_mem_of_ne_nil l h
  intro hu
  have := (mem_npUnique a l).mpr ha
  rw [hu] at this
  simp at this

theorem mem_memberPositions (labels : List ℤ) (cid : ℤ) (i : ℕ) :
    i ∈ memberPositions labels cid ↔ i < labels.length ∧ labels.getD i (-1) = cid := by
  unfold memberPositions
  rw [List.mem_filter, List.mem_range, decide_eq_true_eq]

theorem memberPositions_sorted (labels : List ℤ) (cid : ℤ) :
    (memberPositions labels cid).Sorted (· < ·) :=
  (List.pairwise_lt_range _).filter _

theorem memberPositions_nodup (labels : List ℤ) (cid : ℤ) :
    (memberPositions labels cid).Nodup :=
  (memberPositions_sorted labels cid).nodup

theorem memberPositions_ne_nil (labels : List ℤ) (cid : ℤ) (hmem : cid ∈ labels) :
    memberPositions labels cid ≠ [] := by
  obtain ⟨n, hn, hget⟩ := List.mem_iff_getElem.mp hmem
  have : n ∈ memberPositions labels cid := by
    rw [mem_memberPositions]
    exact ⟨hn, by rw [List.getD_eq_getElem _ _ hn, hget]⟩
  exact List.ne_nil_of_mem this

theorem memberPositions_replicate_zero (n : ℕ) :
    memberPositions (List.replicate n 0) 0 = List.range n := by
  unfold memberPositions
  rw [List.length_replicate]
  apply List.filter_eq_self.mpr
  intro i hi
  rw [decide_eq_true_eq, List.getD_eq_getElem _ _ (by simpa using List.mem_range.mp hi)]
  simp

theorem dedup_replicate_zero (n : ℕ) (h : 0 < n) : (List.replicate n (0 : ℤ)).dedup = [0] := by
  induction n with
  | zero => omega
  | succ m ih =>
      cases Nat.eq_zero_or_pos m with
      | inl h0 => subst h0; simp [List.dedup]
      | inr hm =>
          have hmem : (0 : ℤ) ∈ List.replicate m (0 : ℤ) :=
            List.mem_replicate.mpr ⟨Nat.pos_iff_ne_zero.mp hm, rfl⟩
          rw [List.replicate_succ, List.dedup_cons_of_mem hmem]
          exact ih hm

theorem npUnique_replicate_zero (n : ℕ) (h : 0 < n) :
    npUnique ((List.replicate n (0 : ℤ)).filter (fun lab => decide (lab ≠ -1))) = [0] := by
  have hfilter : (List.replicate n (0 : ℤ)).filter (fun lab => decide (lab ≠ -1)) =
      List.replicate n 0 := by
    apply List.filter_eq_self.mpr
    intro a ha
    have := List.eq_of_mem_replicate ha
    subst this
    simp
  rw [hfilter]
  unfold npUnique
  rw [dedup_replicate_zero n h]
  rfl

/-! ## Chunking and slicing -/

theorem chunksOf_flatten {α : Type} (k : ℕ) (hk : 0 < k) (l : List α) :
    (chunksOf k l).flatten = l := by
  rw [chunksOf]
  by_cases hl : l.length = 0
  · rw [dif_pos (Or.inr hl)]
    rw [List.length_eq_zero] at hl
    simp [hl]
  · rw [dif_neg (by push_neg; exact ⟨Nat.pos_iff_ne_zero.mp hk, hl⟩)]
    rw [List.flatten_cons, chunksOf_flatten k hk (l.drop k), List.take_append_drop]
termination_by l.length
decreasing_by
  have h1 : 0 < l.length := Nat.pos_of_ne_zero hl
  simpa using Nat.sub_lt h1 hk

theorem pySlice_length {α : Type} (l : List α) (s e : ℕ) :
    (pySlice l s e).length = min (e - s) (l.length - s) := by
  simp [pySlice]

theorem pySlice_length_eq {α β : Type} (l : List α) (l2 : List β) (s e : ℕ)
    (h : l.length = l2.length) : (pySlice l s e).length = (pySlice l2 s e).length := by
  rw [pySlice_length, pySlice_length, h]

theorem pySlice_getElem {α : Type} (l : List α) (s e i : ℕ)
    (hi : i < (pySlice l s e).length) (h2 : s + i < l.length) :
    (pySlice l s e)[i] = l[s + i] := by
  unfold pySlice
  rw [List.getElem_take, List.getElem_drop]

theorem mem_pySlice_range (n s e x : ℕ) (hx : x ∈ pySlice (List.range n) s e) :
    s ≤ x ∧ x < e ∧ x < n := by
  obtain ⟨i, hi, hget⟩ := List.mem_iff_getElem.mp hx
  have hlen : i < min (e - s) (n - s) := by
    rw [pySlice_length, List.length_range] at hi
    exact hi
  have h2 : s + i < n := by omega
  rw [pySlice_getElem _ _ _ _ hi (by simpa using h2), List.getElem_range] at hget
  omega

theorem pySlice_range_sorted (n s e : ℕ) : (pySlice (List.range n) s e).Sorted (· < ·) := by
  have h1 : List.Sublist (pySlice (List.range n) s e) (List.range n) :=
    ((List.drop s (List.range n)).take_sublist _).trans (List.drop_sublist s (List.range n))
  exact (List.sorted_lt_range n).sublist h1

theorem pySlice_range_nodup (n s e : ℕ) : (pySlice (List.range n) s e).Nodup :=
  (pySlice_range_sorted n s e).nodup

theorem pySlice_ne_nil (n s e : ℕ) {α : Type} (l : List α) (hlen : l.length = n)
    (hs : s < n) (hse : s < e) : pySlice l s e ≠ [] := by
  have : (pySlice l s e).length ≠ 0 := by
    rw [pySlice_length, hlen]
    omega
  intro hnil
  rw [hnil] at this
  simp at this

/-! ## getD utilities -/

theorem map_getD_range {α : Type} (l : List α) (d : α) :
    (List.range l.length).map (fun i => l.getD i d) = l := by
  apply List.ext_getElem
  · simp
  · intro n h1 h2
    simp only [List.getElem_map, List.getElem_range]
    exact List.getD_eq_getElem l d h2

theorem getD_zero_of_ne_nil {α : Type} [Inhabited α] (l : List α) (h : l ≠ []) (d : α) :
    l.getD 0 d = l.headI := by
  cases l with
  | nil => simp at h
  | cons a t => rfl

theorem getD_map_indexOf {α β : Type} [DecidableEq α] [Inhabited β] (l : List α) (f : α → β)
    (a : α) (ha : a ∈ l) (d : β) : (l.map f).getD (l.indexOf a) d = f a := by
  have hlt : l.indexOf a < l.length := List.indexOf_lt_length.mpr ha
  rw [List.getD_eq_getElem _ _ (by simpa using hlt)]
  rw [List.getElem_map]
  congr 1
  exact List.getElem_indexOf hlt

theorem getD_mem {α : Type} (l : List α) (i : ℕ) (hi : i < l.length) (d : α) :
    l.getD i d ∈ l := by
  rw [List.getD_eq_getElem _ _ hi]
  exact List.getElem_mem hi

/-! ## Boundary detection -/

theorem mem_boundariesOf (t : ℚ) (ps : List ℚ) (i : ℕ) :
    i ∈ boundariesOf t ps ↔ i < ps.length ∧ t < ps.getD i 0 := by
  unfold boundariesOf
  rw [List.mem_filter, List.mem_range, decide_eq_true_eq]

theorem boundariesOf_sorted (t : ℚ) (ps : List ℚ) : (boundariesOf t ps).Sorted (· < ·) :=
  (List.pairwise_lt_range _).filter _

theorem detect_fst_sorted {F : Type} (scorer : List F → List ℚ) (frames : List F)
    (t : ℚ) (k : ℕ) : (detect_shot_boundaries scorer frames t k).1.Sorted (· < ·) := by
  unfold detect_shot_boundaries
  split
  · simp
  · exact boundariesOf_sorted _ _

theorem detect_fst_subset_snd {F : Type} (scorer : List F → List ℚ) (frames : List F)
    (t : ℚ) (k : ℕ) (b : ℕ) (hb : b ∈ (detect_shot_boundaries scorer frames t k).1) :
    b < (detect_shot_boundaries scorer frames t k).2.length := by
  unfold detect_shot_boundaries at hb ⊢
  split at hb
  · simp at hb
  · rename_i h
    rw [if_neg h]
    exact ((mem_boundariesOf _ _ _).mp hb).1

theorem detect_snd_length {F : Type} (scorer : List F → List ℚ) (frames : List F)
    (t : ℚ) (k : ℕ) (hs : ∀ c, (scorer c).length = c.length) (hk : 0 < k) :
    (detect_shot_boundaries scorer frames t k).2.length = frames.length := by
  unfold detect_shot_boundaries
  split
  · rename_i h
    simpa using h.symm
  · rw [List.length_flatten, List.map_map]
    have h1 : (List.map (List.length ∘ scorer) (chunksOf k frames)) =
        List.map List.length (chunksOf k frames) := by
      apply List.map_congr_left
      intro c _
      exact hs c
    rw [h1, ← List.length_flatten, chunksOf_flatten k hk]

theorem detect_fst_lt {F : Type} (scorer : List F → List ℚ) (frames : List F)
    (t : ℚ) (k : ℕ) (hs : ∀ c, (scorer c).length = c.length) (hk : 0 < k) (b : ℕ)
    (hb : b ∈ (detect_shot_boundaries scorer frames t k).1) : b < frames.length := by
  have h1 := detect_fst_subset_snd scorer frames t k b hb
  rwa [detect_snd_length scorer frames t k hs hk] at h1

/-! ## Case analysis of adaptive_clustering -/

theorem headI_mem {α : Type} [Inhabited α] (l : List α) (h : l ≠ []) : l.headI ∈ l := by
  cases l with
  | nil => simp at h
  | cons a t => simp

theorem adaptive_small (clusterer : List Vec → List ℤ) (features : List Vec) (m : ℕ)
    (h : features.length < m) :
    adaptive_clustering clusterer features m = (List.replicate features.length 0, features) := by
  unfold adaptive_clustering
  rw [if_pos h]

theorem adaptive_allnoise (clusterer : List Vec → List ℤ) (features : List Vec) (m : ℕ)
    (h : ¬ features.length < m)
    (hall : (clusterer features).all (fun lab => decide (lab = -1)) = true) :
    adaptive_clustering clusterer features m = (List.replicate features.length 0, features) := by
  unfold adaptive_clustering
  rw [if_neg h, if_pos hall]

theorem exists_nonnoise (labels : List ℤ)
    (hnoise : labels.all (fun lab => decide (lab = -1)) = false) :
    labels.filter (fun lab => decide (lab ≠ -1)) ≠ [] := by
  rw [List.all_eq_false] at hnoise
  obtain ⟨x, hx, hx2⟩ := hnoise
  have hx3 : x ≠ -1 := by simpa using hx2
  have : x ∈ labels.filter (fun lab => decide (lab ≠ -1)) :=
    List.mem_filter.mpr ⟨hx, by simpa using hx3⟩
  exact List.ne_nil_of_mem this

theorem adaptive_normal (clusterer : List Vec → List ℤ) (features : List Vec) (m : ℕ)
    (h : ¬ features.length < m)
    (hnoise : (clusterer features).all (fun lab => decide (lab = -1)) = false) :
    adaptive_clustering clusterer features m =
      (clusterer features,
        (npUnique ((clusterer features).filter (fun lab => decide (lab ≠ -1)))).map
          (fun lab => clusterCentroid (clusterer features) features lab)) := by
  have hK : npUnique ((clusterer features).filter (fun lab => decide (lab ≠ -1))) ≠ [] :=
    npUnique_ne_nil _ (exists_nonnoise _ hnoise)
  have hlen : 0 < ((npUnique ((clusterer features).filter (fun lab => decide (lab ≠ -1)))).map
      (fun lab => clusterCentroid (clusterer features) features lab)).length := by
    rw [List.length_map]
    exact List.length_pos.mpr hK
  simp only [adaptive_clustering, if_neg h, hnoise, Bool.false_eq_true, if_false, if_pos hlen]

theorem adaptive_labels_length (clusterer : List Vec → List ℤ) (features : List Vec) (m : ℕ)
    (hlab : (clusterer features).length = features.length) :
    (adaptive_clustering clusterer features m).1.length = features.length := by
  by_cases h1 : features.length < m
  · rw [adaptive_small _ _ _ h1]; simp
  · by_cases h2 : (clusterer features).all (fun lab => decide (lab = -1)) = true
    · rw [adaptive_allnoise _ _ _ h1 h2]; simp
    · rw [adaptive_normal _ _ _ h1 (by simpa using h2)]; exact hlab

/-! ## Picking the nearest member (the argmin over a member list) -/

theorem argmin_pick_lt_length (mp : List ℕ) (g : ℕ → ℚ) (h : mp ≠ []) :
    npArgmin (mp.map g) < mp.length := by
  have h2 : mp.map g ≠ [] := by simpa using h
  have := npArgmin_lt_length (mp.map g) h2
  simpa using this

theorem argmin_pick_mem (mp : List ℕ) (g : ℕ → ℚ) (h : mp ≠ []) :
    mp.getD (npArgmin (mp.map g)) 0 ∈ mp :=
  getD_mem mp _ (argmin_pick_lt_length mp g h) 0

theorem getD_map_of_lt {α β : Type} [Inhabited β] (l : List α) (f : α → β) (i : ℕ)
    (hi : i < l.length) (d : β) (d2 : α) : (l.map f).getD i d = f (l.getD i d2) := by
  rw [List.getD_eq_getElem _ _ (by simpa using hi), List.getElem_map,
    List.getD_eq_getElem _ _ hi]

theorem argmin_pick_le (mp : List ℕ) (g : ℕ → ℚ) (j : ℕ) (hj : j ∈ mp) :
    g (mp.getD (npArgmin (mp.map g)) 0) ≤ g j := by
  have hne : mp ≠ [] := List.ne_nil_of_mem hj
  obtain ⟨t, ht, hget⟩ := List.mem_iff_getElem.mp hj
  have hA := argmin_pick_lt_length mp g hne
  have h1 := npArgmin_le (mp.map g) t (by simpa using ht)
  rw [getD_map_of_lt mp g _ hA 0 0, getD_map_of_lt mp g t ht 0 0] at h1
  rw [List.getD_eq_getElem _ _ ht, hget] at h1
  exact h1

theorem argmin_pick_least (mp : List ℕ) (g : ℕ → ℚ) (hs : mp.Sorted (· < ·)) (j : ℕ)
    (hj : j ∈ mp) (heq : g (mp.getD (npArgmin (mp.map g)) 0) = g j) :
    mp.getD (npArgmin (mp.map g)) 0 ≤ j := by
  have hne : mp ≠ [] := List.ne_nil_of_mem hj
  obtain ⟨t, ht, hget⟩ := List.mem_iff_getElem.mp hj
  have hA := argmin_pick_lt_length mp g hne
  have hget2 : mp.getD t 0 = j := by rw [List.getD_eq_getElem _ _ ht, hget]
  have hmono : ∀ i1 i2, ∀ hi1 : i1 < mp.length, ∀ hi2 : i2 < mp.length, i1 < i2 →
      mp.getD i1 0 < mp.getD i2 0 := by
    intro i1 i2 hi1 hi2 hlt
    rw [List.getD_eq_getElem _ _ hi1, List.getD_eq_getElem _ _ hi2]
    exact (List.pairwise_iff_getElem.mp hs) i1 i2 hi1 hi2 hlt
  rcases le_or_lt (npArgmin (mp.map g)) t with hle | hlt
  · rcases eq_or_lt_of_le hle with hEq | hlt2
    · rw [hEq, hget2]
    · rw [← hget2]
      exact le_of_lt (hmono _ _ hA ht hlt2)
  · exfalso
    have h1 := npArgmin_first (mp.map g) t (by simpa using hlt)
    rw [getD_map_of_lt mp g _ hA 0 0, getD_map_of_lt mp g t ht 0 0] at h1
    rw [List.getD_eq_getElem _ _ ht, hget] at h1
    rw [heq] at h1
    exact absurd h1 (lt_irrefl _)

theorem closest_isClosestMember (labels : List ℤ) (feats : List Vec) (cid : ℤ)
    (hmp : memberPositions labels cid ≠ []) :
    isClosestMember labels feats cid
      ((memberPositions labels cid).getD
        (npArgmin ((memberPositions labels cid).map
          (fun i => sqDist (feats.getD i []) (clusterCentroid labels feats cid)))) 0) := by
  set g := fun i => sqDist (feats.getD i []) (clusterCentroid labels feats cid) with hg
  set pick := (memberPositions labels cid).getD (npArgmin ((memberPositions labels cid).map g)) 0
    with hpick
  have hmem : pick ∈ memberPositions labels cid := argmin_pick_mem _ g hmp
  have hmem2 := (mem_memberPositions labels cid pick).mp hmem
  refine ⟨hmem2.1, hmem2.2, ?_⟩
  intro j2 hj2 hlab2
  have hj2mem : j2 ∈ memberPositions labels cid :=
    (mem_memberPositions labels cid j2).mpr ⟨hj2, hlab2⟩
  exact ⟨argmin_pick_le _ g j2 hj2mem,
    fun he => argmin_pick_least _ g (memberPositions_sorted labels cid) j2 hj2mem he⟩

/-! ## Branch analysis of select_keyframes -/

theorem select_shortcut {F : Type} (clusterer : List Vec → List ℤ) (sf : List F)
    (feats : List Vec) (idxs : List ℕ)
    (h : feats.length = 1 ∨ ((adaptive_clustering clusterer feats 60).2.length = 1 ∧
      (adaptive_clustering clusterer feats 60).1.all (fun lab => decide (lab ≠ -1)) = true)) :
    select_keyframes clusterer sf feats idxs = [idxs.headI] := by
  simp only [select_keyframes]
  rw [if_pos h]

theorem select_uniqueEmpty {F : Type} (clusterer : List Vec → List ℤ) (sf : List F)
    (feats : List Vec) (idxs : List ℕ)
    (h1 : ¬(feats.length = 1 ∨ ((adaptive_clustering clusterer feats 60).2.length = 1 ∧
      (adaptive_clustering clusterer feats 60).1.all (fun lab => decide (lab ≠ -1)) = true)))
    (h2 : npUnique ((adaptive_clustering clusterer feats 60).1.filter
      (fun lab => decide (lab ≠ -1))) = []) :
    select_keyframes clusterer sf feats idxs = [idxs.headI] := by
  simp only [select_keyframes]
  rw [if_neg h1, if_pos h2]

theorem select_loop {F : Type} (clusterer : List Vec → List ℤ) (sf : List F)
    (feats : List Vec) (idxs : List ℕ)
    (h1 : ¬(feats.length = 1 ∨ ((adaptive_clustering clusterer feats 60).2.length = 1 ∧
      (adaptive_clustering clusterer feats 60).1.all (fun lab => decide (lab ≠ -1)) = true)))
    (h2 : npUnique ((adaptive_clustering clusterer feats 60).1.filter
      (fun lab => decide (lab ≠ -1))) ≠ []) :
    select_keyframes clusterer sf feats idxs =
      ((npUnique ((adaptive_clustering clusterer feats 60).1.filter
        (fun lab => decide (lab ≠ -1)))).map (fun cid =>
        idxs.getD
          ((memberPositions (adaptive_clustering clusterer feats 60).1 cid).getD
            (npArgmin ((memberPositions (adaptive_clustering clusterer feats 60).1 cid).map
              (fun i => sqDist (feats.getD i [])
                ((adaptive_clustering clusterer feats 60).2.getD
                  ((npUnique ((adaptive_clustering clusterer feats 60).1.filter
                    (fun lab => decide (lab ≠ -1)))).indexOf cid) [])))) 0) 0)).insertionSort
        (· ≤ ·) := by
  simp only [select_keyframes]
  rw [if_neg h1, if_neg h2]
  simp only [List.map_map]
  rfl

theorem select_ne_nil {F : Type} (clusterer : List Vec → List ℤ) (sf : List F)
    (feats : List Vec) (idxs : List ℕ) :
    select_keyframes clusterer sf feats idxs ≠ [] := by
  by_cases h1 : feats.length = 1 ∨ ((adaptive_clustering clusterer feats 60).2.length = 1 ∧
      (adaptive_clustering clusterer feats 60).1.all (fun lab => decide (lab ≠ -1)) = true)
  · rw [select_shortcut _ _ _ _ h1]; simp
  · by_cases h2 : npUnique ((adaptive_clustering clusterer feats 60).1.filter
        (fun lab => decide (lab ≠ -1))) = []
    · rw [select_uniqueEmpty _ _ _ _ h1 h2]; simp
    · rw [select_loop _ _ _ _ h1 h2]
      intro hnil
      have hlen := congrArg List.length hnil
      rw [(List.perm_insertionSort _ _).length_eq, List.length_map] at hlen
      exact h2 (List.length_eq_zero.mp (by simpa using hlen))

theorem select_subset {F : Type} (clusterer : List Vec → List ℤ) (sf : List F)
    (feats : List Vec) (idxs : List ℕ)
    (hlab : (clusterer feats).length = feats.length)
    (hlen : feats.length = idxs.length) (hne : idxs ≠ []) :
    ∀ x ∈ select_keyframes clusterer sf feats idxs, x ∈ idxs := by
  intro x hx
  by_cases h1 : feats.length = 1 ∨ ((adaptive_clustering clusterer feats 60).2.length = 1 ∧
      (adaptive_clustering clusterer feats 60).1.all (fun lab => decide (lab ≠ -1)) = true)
  · rw [select_shortcut _ _ _ _ h1] at hx
    rw [List.mem_singleton] at hx
    subst hx
    exact headI_mem idxs hne
  · by_cases h2 : npUnique ((adaptive_clustering clusterer feats 60).1.filter
        (fun lab => decide (lab ≠ -1))) = []
    · rw [select_uniqueEmpty _ _ _ _ h1 h2] at hx
      rw [List.mem_singleton] at hx
      subst hx
      exact headI_mem idxs hne
    · rw [select_loop _ _ _ _ h1 h2] at hx
      rw [List.mem_insertionSort] at hx
      obtain ⟨cid, hcid, hpick⟩ := List.mem_map.mp hx
      subst hpick
      have hlablen : (adaptive_clustering clusterer feats 60).1.length = feats.length :=
        adaptive_labels_length _ _ _ hlab
      have hcidmem : cid ∈ (adaptive_clustering clusterer feats 60).1 := by
        have := (mem_npUnique _ _).mp hcid
        exact (List.mem_filter.mp this).1
      have hmp : memberPositions (adaptive_clustering clusterer feats 60).1 cid ≠ [] :=
        memberPositions_ne_nil _ _ hcidmem
      have hcl := argmin_pick_mem (memberPositions (adaptive_clustering clusterer feats 60).1 cid)
        (fun i => sqDist (feats.getD i [])
          ((adaptive_clustering clusterer feats 60).2.getD
            ((npUnique ((adaptive_clustering clusterer feats 60).1.filter
              (fun lab => decide (lab ≠ -1)))).indexOf cid) [])) hmp
      have hcllt := ((mem_memberPositions _ _ _).mp hcl).1
      refine getD_mem idxs _ ?_ 0
      omega

theorem select_sorted {F : Type} (clusterer : List Vec → List ℤ) (sf : List F)
    (feats : List Vec) (idxs : List ℕ)
    (hlab : (clusterer feats).length = feats.length)
    (hlen : feats.length = idxs.length) (hnd : idxs.Nodup) :
    (select_keyframes clusterer sf feats idxs).Sorted (· < ·) := by
  by_cases h1 : feats.length = 1 ∨ ((adaptive_clustering clusterer feats 60).2.length = 1 ∧
      (adaptive_clustering clusterer feats 60).1.all (fun lab => decide (lab ≠ -1)) = true)
  · rw [select_shortcut _ _ _ _ h1]; simp
  · by_cases h2 : npUnique ((adaptive_clustering clusterer feats 60).1.filter
        (fun lab => decide (lab ≠ -1))) = []
    · rw [select_uniqueEmpty _ _ _ _ h1 h2]; simp
    · rw [select_loop _ _ _ _ h1 h2]
      have hlablen : (adaptive_clustering clusterer feats 60).1.length = feats.length :=
        adaptive_labels_length _ _ _ hlab
      have hclosest : ∀ cid ∈ npUnique ((adaptive_clustering clusterer feats 60).1.filter
          (fun lab => decide (lab ≠ -1))),
          ((memberPositions (adaptive_clustering clusterer feats 60).1 cid).getD
            (npArgmin ((memberPositions (adaptive_clustering clusterer feats 60).1 cid).map
              (fun i => sqDist (feats.getD i [])
                ((adaptive_clustering clusterer feats 60).2.getD
                  ((npUnique ((adaptive_clustering clusterer feats 60).1.filter
                    (fun lab => decide (lab ≠ -1)))).indexOf cid) [])))) 0) < idxs.length ∧
          (adaptive_clustering clusterer feats 60).1.getD
            ((memberPositions (adaptive_clustering clusterer feats 60).1 cid).getD
              (npArgmin ((memberPositions (adaptive_clustering clusterer feats 60).1 cid).map
                (fun i => sqDist (feats.getD i [])
                  ((adaptive_clustering clusterer feats 60).2.getD
                    ((npUnique ((adaptive_clustering clusterer feats 60).1.filter
                      (fun lab => decide (lab ≠ -1)))).indexOf cid) [])))) 0) (-1) = cid := by
        intro cid hcid
        have hcidmem : cid ∈ (adaptive_clustering clusterer feats 60).1 := by
          have := (mem_npUnique _ _).mp hcid
          exact (List.mem_filter.mp this).1
        have hmp : memberPositions (adaptive_clustering clusterer feats 60).1 cid ≠ [] :=
          memberPositions_ne_nil _ _ hcidmem
        have hcl := argmin_pick_mem (memberPositions
          (adaptive_clustering clusterer feats 60).1 cid)
          (fun i => sqDist (feats.getD i [])
            ((adaptive_clustering clusterer feats 60).2.getD
              ((npUnique ((adaptive_clustering clusterer feats 60).1.filter
                (fun lab => decide (lab ≠ -1)))).indexOf cid) [])) hmp
        have h3 := (mem_memberPositions _ _ _).mp hcl
        exact ⟨by omega, h3.2⟩
      have hpicksnd : (((npUnique ((adaptive_clustering clusterer feats 60).1.filter
          (fun lab => decide (lab ≠ -1)))).map (fun cid =>
          idxs.getD
            ((memberPositions (adaptive_clustering clusterer feats 60).1 cid).getD
              (npArgmin ((memberPositions (adaptive_clustering clusterer feats 60).1 cid).map
                (fun i => sqDist (feats.getD i [])
                  ((adaptive_clustering clusterer feats 60).2.getD
                    ((npUnique ((adaptive_clustering clusterer feats 60).1.filter
                      (fun lab => decide (lab ≠ -1)))).indexOf cid) [])))) 0) 0))).Nodup := by
        apply List.Nodup.map_on _ (npUnique_nodup _)
        intro c1 hc1 c2 hc2 heq
        obtain ⟨hlt1, heq1⟩ := hclosest c1 hc1
        obtain ⟨hlt2, heq2⟩ := hclosest c2 hc2
        rw [List.getD_eq_getElem _ _ hlt1, List.getD_eq_getElem _ _ hlt2] at heq
        have := (hnd.getElem_inj_iff).mp heq
        rw [← heq1, ← heq2, this]
      have hsle : (((npUnique ((adaptive_clustering clusterer feats 60).1.filter
          (fun lab => decide (lab ≠ -1)))).map (fun cid =>
          idxs.getD
            ((memberPositions (adaptive_clustering clusterer feats 60).1 cid).getD
              (npArgmin ((memberPositions (adaptive_clustering clusterer feats 60).1 cid).map
                (fun i => sqDist (feats.getD i [])
                  ((adaptive_clustering clusterer feats 60).2.getD
                    ((npUnique ((adaptive_clustering clusterer feats 60).1.filter
                      (fun lab => decide (lab ≠ -1)))).indexOf cid) [])))) 0) 0)).insertionSort
          (· ≤ ·)).Sorted (· ≤ ·) := List.sorted_insertionSort _ _
      have hndsort := ((List.perm_insertionSort (· ≤ ·) _).nodup_iff).mpr hpicksnd
      exact hsle.lt_of_le hndsort

theorem range_getD_zero (n : ℕ) (hn : 0 < n) : (List.range n).getD 0 0 = 0 := by
  rw [List.getD_eq_getElem _ _ (by simpa using hn), List.getElem_range]

theorem insertionSort_singleton (x : ℕ) : ([x] : List ℕ).insertionSort (· ≤ ·) = [x] := rfl

/-- When `adaptive_clustering` has fallen back to all-zero labels with the raw
features in the centroid slot (the too-small-shot and the all-noise cases),
the selection loop degenerates: the "centroid" is the first feature vector,
whose self-distance 0 wins the argmin, so the shot's first index is picked. -/
theorem select_of_replicate {F : Type} (clusterer : List Vec → List ℤ) (sf : List F)
    (feats : List Vec) (idxs : List ℕ)
    (hadapt : adaptive_clustering clusterer feats 60 = (List.replicate feats.length 0, feats))
    (hfne : feats ≠ []) (hlen : feats.length = idxs.length) :
    select_keyframes clusterer sf feats idxs = [idxs.headI] := by
  have hn : 0 < feats.length := List.length_pos.mpr hfne
  have hine : idxs ≠ [] := by
    intro h
    rw [h] at hlen
    simp at hlen
    exact hfne hlen
  by_cases h1 : feats.length = 1 ∨ ((adaptive_clustering clusterer feats 60).2.length = 1 ∧
      (adaptive_clustering clusterer feats 60).1.all (fun lab => decide (lab ≠ -1)) = true)
  · exact select_shortcut _ _ _ _ h1
  · have hKeq : npUnique ((adaptive_clustering clusterer feats 60).1.filter
        (fun lab => decide (lab ≠ -1))) = [0] := by
      rw [hadapt]
      exact npUnique_replicate_zero _ hn
    rw [select_loop _ _ _ _ h1 (by rw [hKeq]; simp)]
    rw [hKeq]
    rw [List.map_cons, List.map_nil, insertionSort_singleton]
    have hmp : memberPositions (adaptive_clustering clusterer feats 60).1 0 =
        List.range feats.length := by
      rw [hadapt]
      exact memberPositions_replicate_zero _
    have hc0 : (adaptive_clustering clusterer feats 60).2.getD
        (([0] : List ℤ).indexOf 0) [] = feats.getD 0 [] := by
      rw [hadapt]
      rfl
    rw [hmp, hc0]
    have hargmin : npArgmin ((List.range feats.length).map
        (fun i => sqDist (feats.getD i []) (feats.getD 0 []))) = 0 := by
      apply npArgmin_eq_zero
      intro i hi
      rw [List.length_map, List.length_range] at hi
      have h0 : ((List.range feats.length).map
          (fun i => sqDist (feats.getD i []) (feats.getD 0 []))).getD 0 0 = 0 := by
        rw [getD_map_of_lt _ _ 0 (by simpa using hn) 0 0, range_getD_zero _ hn]
        exact sqDist_self _
      rw [h0, getD_map_of_lt _ _ i (by simpa using hi) 0 0]
      exact sqDist_nonneg _ _
    rw [hargmin, range_getD_zero _ hn, getD_zero_of_ne_nil idxs hine 0]

/-! ## Ordering across shots -/

theorem flatten_pairs_lb (f : ℕ × ℕ → List ℕ)
    (hmem : ∀ s e x, x ∈ f (s, e) → s ≤ x ∧ x < e) :
    ∀ (bl : List ℕ) (b : ℕ), List.Chain' (· ≤ ·) (b :: bl) →
      ∀ y ∈ (((b :: bl).zip bl).map f).flatten, b ≤ y := by
  intro bl
  induction bl with
  | nil =>
      intro b hc y hy
      simp at hy
  | cons c rest ih =>
      intro b hc y hy
      rw [List.zip_cons_cons, List.map_cons, List.flatten_cons, List.mem_append] at hy
      rcases hy with hy | hy
      · exact (hmem b c y hy).1
      · have hbc : b ≤ c := (List.chain'_cons.mp hc).1
        have h2 := ih c (List.chain'_cons.mp hc).2 y hy
        omega

theorem flatten_pairs_sorted (f : ℕ × ℕ → List ℕ)
    (hmem : ∀ s e x, x ∈ f (s, e) → s ≤ x ∧ x < e)
    (hsort : ∀ p, (f p).Sorted (· < ·)) :
    ∀ bl : List ℕ, List.Chain' (· ≤ ·) bl →
      (((bl.zip bl.tail).map f).flatten).Sorted (· < ·) := by
  intro bl
  induction bl with
  | nil => intro _; simp
  | cons b rest ih =>
      intro hc
      cases rest with
      | nil => simp
      | cons c rest2 =>
          rw [List.tail_cons, List.zip_cons_cons, List.map_cons, List.flatten_cons]
          apply List.pairwise_append.mpr
          refine ⟨hsort (b, c), ?_, ?_⟩
          · have := ih (List.chain'_cons.mp hc).2
            rw [List.tail_cons] at this
            exact this
          · intro x hx y hy
            have hxc : x < c := (hmem b c x hx).2
            have hcy : c ≤ y :=
              flatten_pairs_lb f hmem rest2 c (List.chain'_cons.mp hc).2 y hy
            omega

theorem chain_boundaryList (bs : List ℕ) (n : ℕ) (hb : ∀ b ∈ bs, b ≤ n)
    (hsorted : bs.Sorted (· < ·)) : List.Chain' (· ≤ ·) (0 :: bs ++ [n]) := by
  rw [List.chain'_iff_pairwise]
  apply List.pairwise_cons.mpr
  refine ⟨fun a _ => Nat.zero_le a, ?_⟩
  apply List.pairwise_append.mpr
  refine ⟨hsorted.imp le_of_lt, by simp, ?_⟩
  intro x hx y hy
  rw [List.mem_singleton] at hy
  subst hy
  exact hb x hx

/-! ## Per-shot facts -/

theorem shotKeyframes_mem {F : Type} (clusterer : List Vec → List ℤ) (embed : F → Vec)
    (frames : List F) (hcl : ∀ fs, (clusterer fs).length = fs.length) (s e x : ℕ)
    (hx : x ∈ shotKeyframes clusterer embed frames (s, e)) :
    s ≤ x ∧ x < e ∧ x < frames.length := by
  unfold shotKeyframes at hx
  by_cases hempty : (pySlice frames s e).length = 0
  · rw [if_pos hempty] at hx
    simp at hx
  · rw [if_neg hempty] at hx
    have hlen2 : ((pySlice frames s e).map embed).length =
        (pySlice (List.range frames.length) s e).length := by
      rw [List.length_map]
      exact pySlice_length_eq _ _ s e (by simp)
    have hne2 : pySlice (List.range frames.length) s e ≠ [] := by
      intro hnil
      have := congrArg List.length hnil
      rw [pySlice_length, List.length_range] at this
      rw [pySlice_length] at hempty
      simp at this
      omega
    have hsub := select_subset clusterer (pySlice frames s e) ((pySlice frames s e).map embed)
      (pySlice (List.range frames.length) s e) (hcl _) hlen2 hne2 x hx
    exact mem_pySlice_range frames.length s e x hsub

theorem shotKeyframes_sorted {F : Type} (clusterer : List Vec → List ℤ) (embed : F → Vec)
    (frames : List F) (hcl : ∀ fs, (clusterer fs).length = fs.length) (p : ℕ × ℕ) :
    (shotKeyframes clusterer embed frames p).Sorted (· < ·) := by
  unfold shotKeyframes
  by_cases hempty : (pySlice frames p.1 p.2).length = 0
  · rw [if_pos hempty]
    simp
  · rw [if_neg hempty]
    have hlen2 : ((pySlice frames p.1 p.2).map embed).length =
        (pySlice (List.range frames.length) p.1 p.2).length := by
      rw [List.length_map]
      exact pySlice_length_eq _ _ p.1 p.2 (by simp)
    exact select_sorted clusterer (pySlice frames p.1 p.2) ((pySlice frames p.1 p.2).map embed)
      (pySlice (List.range frames.length) p.1 p.2) (hcl _) hlen2
      (pySlice_range_nodup frames.length p.1 p.2)

/-! ## The aggregated keyframe list -/

theorem extract_flatten_sorted {F : Type} (clusterer : List Vec → List ℤ) (embed : F → Vec)
    (frames : List F) (bs : List ℕ) (hcl : ∀ fs, (clusterer fs).length = fs.length)
    (hsorted : bs.Sorted (· < ·)) (hb : ∀ b ∈ bs, b < frames.length) :
    (((shotRanges bs frames.length).map
      (shotKeyframes clusterer embed frames)).flatten).Sorted (· < ·) := by
  simp only [shotRanges, List.tail_cons]
  have hchain := chain_boundaryList bs frames.length (fun b hb2 => le_of_lt (hb b hb2)) hsorted
  have h1 := flatten_pairs_sorted (shotKeyframes clusterer embed frames)
    (fun s e x hx => ⟨(shotKeyframes_mem clusterer embed frames hcl s e x hx).1,
      (shotKeyframes_mem clusterer embed frames hcl s e x hx).2.1⟩)
    (shotKeyframes_sorted clusterer embed frames hcl)
    (0 :: bs ++ [frames.length]) hchain
  exact h1

theorem extract_sorted {F : Type} (clusterer : List Vec → List ℤ) (embed : F → Vec)
    (frames : List F) (bs : List ℕ) (hcl : ∀ fs, (clusterer fs).length = fs.length)
    (hsorted : bs.Sorted (· < ·)) (hb : ∀ b ∈ bs, b < frames.length) :
    (extract_keyframes clusterer embed frames bs).Sorted (· < ·) := by
  unfold extract_keyframes
  have hflat := extract_flatten_sorted clusterer embed frames bs hcl hsorted hb
  rw [(hflat.le_of_lt).insertionSort_eq]
  exact hflat

theorem extract_bounded {F : Type} (clusterer : List Vec → List ℤ) (embed : F → Vec)
    (frames : List F) (bs : List ℕ) (hcl : ∀ fs, (clusterer fs).length = fs.length) (x : ℕ)
    (hx : x ∈ extract_keyframes clusterer embed frames bs) : x < frames.length := by
  unfold extract_keyframes at hx
  rw [List.mem_insertionSort, List.mem_flatten] at hx
  obtain ⟨l, hl, hxl⟩ := hx
  obtain ⟨p, _, hp2⟩ := List.mem_map.mp hl
  subst hp2
  exact (shotKeyframes_mem clusterer embed frames hcl p.1 p.2 x hxl).2.2

theorem exists_pair_lt (n : ℕ) : ∀ (b : ℕ) (bs : List ℕ), b < n → (∀ x ∈ bs, x < n) →
    ∃ p ∈ (b :: bs ++ [n]).zip (bs ++ [n]), p.1 < p.2 ∧ p.1 < n := by
  intro b bs
  induction bs generalizing b with
  | nil =>
      intro hb _
      exact ⟨(b, n), by simp, hb, hb⟩
  | cons c rest ih =>
      intro hb hx
      obtain ⟨p, hp, hps⟩ := ih c (hx c (by simp)) (fun z hz => hx z (by simp [hz]))
      refine ⟨p, ?_, hps⟩
      exact List.mem_cons_of_mem (b, c) hp

theorem extract_ne_nil {F : Type} (clusterer : List Vec → List ℤ) (embed : F → Vec)
    (frames : List F) (bs : List ℕ) (hb : ∀ b ∈ bs, b < frames.length)
    (hne : frames ≠ []) : extract_keyframes clusterer embed frames bs ≠ [] := by
  simp only [extract_keyframes, shotRanges, List.tail_cons]
  intro hnil
  have hflatlen := congrArg List.length hnil
  rw [(List.perm_insertionSort _ _).length_eq] at hflatlen
  have hflat : (((0 :: bs ++ [frames.length]).zip (bs ++ [frames.length])).map
      (shotKeyframes clusterer embed frames)).flatten = [] :=
    List.length_eq_zero.mp (by simpa using hflatlen)
  obtain ⟨p, hp, hp1, hp2⟩ :=
    exists_pair_lt frames.length 0 bs (List.length_pos.mpr hne) hb
  have hcontrib : shotKeyframes clusterer embed frames p ≠ [] := by
    unfold shotKeyframes
    have hslice : ¬ (pySlice frames p.1 p.2).length = 0 := by
      rw [pySlice_length]
      omega
    rw [if_neg hslice]
    exact select_ne_nil _ _ _ _
  rw [List.flatten_eq_nil_iff] at hflat
  exact hcontrib (hflat _ (List.mem_map_of_mem _ hp))

/-! ## The request handler -/

theorem detectE_nil {F : Type} (scorer : List F → Except String (List ℚ)) (t : ℚ) (k : ℕ) :
    detectE scorer [] t k = .ok ([], []) := by
  simp [detectE]

theorem extractE_nil {F : Type} (clusterer : List Vec → List ℤ)
    (embed : F → Except String Vec) :
    extractE clusterer embed ([] : List F) [] = .ok [] := rfl

theorem handleRequest_cases {F : Type} (scorer : List F → Except String (List ℚ))
    (embed : F → Except String Vec) (clusterer : List Vec → List ℤ)
    (saver : String → List ℕ → Except String Unit)
    (video : Except String (List F)) (od : Option String) :
    (∃ bs kfs, handleRequest scorer embed clusterer saver video od =
      ⟨"success", some bs, some kfs, none⟩) ∨
    (∃ m, handleRequest scorer embed clusterer saver video od =
      ⟨"error", none, none, some m⟩) := by
  unfold handleRequest
  split
  · rename_i p _
    left
    exact ⟨p.1, p.2, rfl⟩
  · rename_i e _
    right
    exact ⟨e, rfl⟩

theorem handleRequest_emptyVideo {F : Type} (scorer : List F → Except String (List ℚ))
    (embed : F → Except String Vec) (clusterer : List Vec → List ℤ)
    (saver : String → List ℕ → Except String Unit) :
    handleRequest scorer embed clusterer saver (.ok ([] : List F)) none =
      ⟨"success", some [], some [], none⟩ := by
  unfold handleRequest
  rw [show (Except.ok ([] : List F)).bind (fun frames =>
      (detectE scorer frames (1 / 2) 32).bind (fun det =>
        (extractE clusterer embed frames det.1).bind (fun kfs =>
          (saveStep saver none det.1 kfs).map (fun _ => (det.1, kfs))))) =
      ((detectE scorer [] (1 / 2) 32).bind (fun det =>
        (extractE clusterer embed ([] : List F) det.1).bind (fun kfs =>
          (saveStep saver none det.1 kfs).map (fun _ => (det.1, kfs))))) from rfl]
  rw [detectE_nil]
  rw [show ((Except.ok (([] : List ℕ), ([] : List ℚ))).bind (fun det =>
      (extractE clusterer embed ([] : List F) det.1).bind (fun kfs =>
        (saveStep saver none det.1 kfs).map (fun _ => (det.1, kfs))))) =
      ((extractE clusterer embed ([] : List F) []).bind (fun kfs =>
        (saveStep saver none [] kfs).map (fun _ => (([] : List ℕ), kfs)))) from rfl]
  rw [extractE_nil]
  rfl

theorem saveStep_of_ok (saver : String → List ℕ → Except String Unit)
    (hsave : ∀ d bs, saver d bs = .ok ()) (od : Option String) (bs kfs : List ℕ) :
    saveStep saver od bs kfs = .ok () := by
  cases od with
  | none => rfl
  | some dir => simp [saveStep, hsave, Except.bind]

theorem handleRequest_saver_irrelevant {F : Type} (scorer : List F → Except String (List ℚ))
    (embed : F → Except String Vec) (clusterer : List Vec → List ℤ)
    (saver : String → List ℕ → Except String Unit)
    (hsave : ∀ d bs, saver d bs = .ok ())
    (video : Except String (List F)) (od : Option String) :
    handleRequest scorer embed clusterer saver video od =
      handleRequest scorer embed clusterer saver video none := by
  unfold handleRequest
  simp only [saveStep_of_ok saver hsave]

/-! ## Concrete evaluation helpers for the counterexamples -/

theorem chunksOf_32_singleton (a : ℕ) : chunksOf 32 [a] = [[a]] := by
  rw [chunksOf, dif_neg (by simp)]
  rw [chunksOf, dif_pos (by simp)]
  rfl

theorem boundariesOf_singleton (t q : ℚ) :
    boundariesOf t [q] = if t < q then [0] else [] := by
  unfold boundariesOf
  have hr : List.range ([q] : List ℚ).length = [0] := rfl
  rw [hr]
  by_cases h : t < q
  · rw [if_pos h]
    simp [h]
  · rw [if_neg h]
    simp [le_of_not_lt h]

theorem detectE_singleton (q t : ℚ) :
    detectE (fun fs : List ℕ => Except.ok (fs.map (fun _ => q))) [0] t 32 =
      .ok (boundariesOf t [q], [q]) := by
  unfold detectE
  rw [if_neg (by simp), chunksOf_32_singleton]
  rfl

theorem handleRequest_of_ok {F : Type} (scorer : List F → Except String (List ℚ))
    (embed : F → Except String Vec) (clusterer : List Vec → List ℤ)
    (saver : String → List ℕ → Except String Unit) (frames : List F)
    (det : List ℕ × List ℚ) (kfs : List ℕ)
    (hdet : detectE scorer frames (1 / 2) 32 = .ok det)
    (hext : extractE clusterer embed frames det.1 = .ok kfs) :
    handleRequest scorer embed clusterer saver (.ok frames) none =
      ⟨"success", some det.1, some kfs, none⟩ := by
  unfold handleRequest
  simp only [Except.bind, hdet, hext, saveStep, Except.map]

theorem handleRequest_of_save_error {F : Type} (scorer : List F → Except String (List ℚ))
    (embed : F → Except String Vec) (clusterer : List Vec → List ℤ)
    (saver : String → List ℕ → Except String Unit) (frames : List F)
    (det : List ℕ × List ℚ) (kfs : List ℕ) (dir msg : String)
    (hdet : detectE scorer frames (1 / 2) 32 = .ok det)
    (hext : extractE clusterer embed frames det.1 = .ok kfs)
    (hsv : saveStep saver (some dir) det.1 kfs = .error msg) :
    handleRequest scorer embed clusterer saver (.ok frames) (some dir) =
      ⟨"error", none, none, some msg⟩ := by
  unfold handleRequest
  simp only [Except.bind, hdet, hext, hsv, Except.map]

/-! ## The claims -/

/-- C4: the boundary detector reports frame index `i` as a boundary iff the
`i`-th entry of the concatenated per-chunk score series strictly exceeds the
threshold (equality is not a boundary, which the strict `<` in the
characterization encodes), and an empty frame sequence yields `([], [])`. -/
theorem claim_C4 {F : Type} (scorer : List F → List ℚ) (frames : List F) (t : ℚ) (k : ℕ) :
    (∀ i : ℕ, i ∈ (detect_shot_boundaries scorer frames t k).1 ↔
      (i < (detect_shot_boundaries scorer frames t k).2.length ∧
        t < (detect_shot_boundaries scorer frames t k).2.getD i 0)) ∧
    detect_shot_boundaries scorer ([] : List F) t k = ([], []) := by
  constructor
  · intro i
    unfold detect_shot_boundaries
    by_cases hf : frames.length = 0
    · rw [if_pos hf]
      simp
    · rw [if_neg hf]
      exact mem_boundariesOf t _ i
  · rfl

/-- C5 counterexample: a one-frame video whose (length-preserving, per-frame)
scorer assigns probability 1 to every frame makes the handler report frame
index 0 as a boundary to the caller, so a reported boundary need not lie in
the open interval `(0, total_frame_count)`: the lower end 0 can be reported. -/
theorem claim_C5_counterexample :
    (handleRequest (fun fs : List ℕ => Except.ok (fs.map (fun _ => (1 : ℚ))))
      (fun _ => Except.ok ([] : Vec)) (fun fs => List.replicate fs.length 0)
      (fun _ _ => Except.ok ()) (.ok [0]) none).shot_boundaries = some [0] := by
  have hdet : detectE (fun fs : List ℕ => Except.ok (fs.map (fun _ => (1 : ℚ)))) [0]
      (1 / 2) 32 = .ok ([0], [1]) := by
    rw [detectE_singleton, boundariesOf_singleton, if_pos (by norm_num)]
  have hext : extractE (fun fs => List.replicate fs.length 0)
      (fun _ : ℕ => Except.ok ([] : Vec)) [0] [0] = .ok [0] := rfl
  rw [handleRequest_of_ok _ _ _ _ [0] ([0], [1]) [0] hdet hext]

/-- C5 (amended): the reported shot boundaries are strictly increasing and lie
in `[0, total_frame_count)` — the upper sentinel is never reported (given the
scorer's one-score-per-frame contract), but index 0 can be, so the interval is
closed on the left, not open as the original claim states. -/
theorem claim_C5_amended {F : Type} (scorer : List F → List ℚ) (frames : List F) (t : ℚ)
    (k : ℕ) (hs : ∀ c, (scorer c).length = c.length) (hk : 0 < k) :
    (detect_shot_boundaries scorer frames t k).1.Sorted (· < ·) ∧
    ∀ b ∈ (detect_shot_boundaries scorer frames t k).1, b < frames.length :=
  ⟨detect_fst_sorted scorer frames t k,
    fun b hb => detect_fst_lt scorer frames t k hs hk b hb⟩

/-- Witness for C5 (amended) at a concrete one-frame video. -/
theorem claim_C5_amended_witness :
    (detect_shot_boundaries (fun c : List ℕ => c.map (fun _ => (0 : ℚ))) [0]
      (1 / 2) 32).1.Sorted (· < ·) ∧
    ∀ b ∈ (detect_shot_boundaries (fun c : List ℕ => c.map (fun _ => (0 : ℚ))) [0]
      (1 / 2) 32).1, b < ([0] : List ℕ).length :=
  claim_C5_amended (fun c : List ℕ => c.map (fun _ => (0 : ℚ))) [0] (1 / 2) 32
    (fun c => by simp) (by norm_num)

/-- C6: the shot segmenter pairs `[0] + boundaries + [total]` into consecutive
half-open ranges — on boundaries `[10, 25]` with 30 frames it yields exactly
`[0,10), [10,25), [25,30)` — and a zero-frame shot (`start = end`) contributes
nothing: it is skipped before the embedding provider is ever consulted, with
no error. -/
theorem claim_C6 :
    shotRanges [10, 25] 30 = [(0, 10), (10, 25), (25, 30)] ∧
    ∀ (F : Type) (clusterer : List Vec → List ℤ) (embed : F → Vec)
      (frames : List F) (s : ℕ),
      shotKeyframes clusterer embed frames (s, s) = [] := by
  constructor
  · rfl
  · intro F clusterer embed frames s
    unfold shotKeyframes
    rw [if_pos]
    rw [pySlice_length]
    simp

/-- C7 counterexample: a transition scorer that satisfies the
one-score-per-frame contract but lets scores depend on the whole chunk (here:
probability 1 iff its chunk holds at least two frames) yields different
results under chunked scoring (chunk size 1: no boundaries) than under a
single whole-sequence invocation (boundaries at 0 and 1): chunking is *not*
result-preserving for an arbitrary contract-satisfying scorer. -/
theorem claim_C7_counterexample :
    detect_shot_boundaries
        (fun fs : List ℕ => fs.map (fun _ => if 2 ≤ fs.length then (1 : ℚ) else 0))
        [0, 1] (1 / 2) 1 ≠
      detectWholeSpec
        (fun fs : List ℕ => fs.map (fun _ => if 2 ≤ fs.length then (1 : ℚ) else 0))
        [0, 1] (1 / 2) := by
  have hchunks : chunksOf 1 [(0 : ℕ), 1] = [[0], [1]] := by
    rw [chunksOf, dif_neg (by simp)]
    rw [chunksOf, dif_neg (by simp)]
    rw [chunksOf, dif_pos (by simp)]
    rfl
  intro h
  have h2 := congrArg (fun p => p.2) h
  unfold detect_shot_boundaries detectWholeSpec at h2
  rw [if_neg (by simp), hchunks] at h2
  simp at h2

/-- C7 (amended): chunking is result-preserving when the scorer is per-frame
(pointwise) — each frame's probability depends only on that frame, which is
how the specification describes the collaborator ("pure functions frames →
per-frame scalar probability").  Then for any chunk size ≥ 1 the chunked
detector output equals the whole-sequence output exactly. -/
theorem claim_C7_amended {F : Type} (f : F → ℚ) (frames : List F) (t : ℚ) (k : ℕ)
    (hk : 0 < k) :
    detect_shot_boundaries (fun fs => fs.map f) frames t k =
      detectWholeSpec (fun fs => fs.map f) frames t := by
  unfold detect_shot_boundaries detectWholeSpec
  by_cases hf : frames.length = 0
  · rw [if_pos hf]
    have h0 : frames = [] := List.length_eq_zero.mp hf
    subst h0
    simp [boundariesOf]
  · rw [if_neg hf]
    have hmaps : ((chunksOf k frames).map (fun fs => fs.map f)).flatten = frames.map f := by
      rw [← List.map_flatten, chunksOf_flatten k hk]
    rw [hmaps]

/-- Witness for C7 (amended) at a concrete one-frame video. -/
theorem claim_C7_amended_witness :
    detect_shot_boundaries (fun fs : List ℕ => fs.map (fun _ => (0 : ℚ))) [0] (1 / 2) 32 =
      detectWholeSpec (fun fs : List ℕ => fs.map (fun _ => (0 : ℚ))) [0] (1 / 2) :=
  claim_C7_amended (fun _ => (0 : ℚ)) [0] (1 / 2) 32 (by norm_num)

/-- C1: for every video run through the pipeline (boundaries detected, then
keyframes extracted), under the collaborator contracts — one score per frame,
one cluster label per feature vector — and a positive chunk size, the returned
keyframe list is strictly increasing (hence duplicate-free) and every entry
lies in `[0, total_frame_count)`. -/
theorem claim_C1 {F : Type} (scorer : List F → List ℚ) (clusterer : List Vec → List ℤ)
    (embed : F → Vec) (frames : List F) (t : ℚ) (k : ℕ)
    (hs : ∀ c, (scorer c).length = c.length)
    (hcl : ∀ fs, (clusterer fs).length = fs.length) (hk : 0 < k) :
    (extract_keyframes clusterer embed frames
      (detect_shot_boundaries scorer frames t k).1).Sorted (· < ·) ∧
    ∀ x ∈ extract_keyframes clusterer embed frames
      (detect_shot_boundaries scorer frames t k).1, x < frames.length := by
  refine ⟨?_, ?_⟩
  · exact extract_sorted clusterer embed frames _ hcl (detect_fst_sorted scorer frames t k)
      (fun b hb => detect_fst_lt scorer frames t k hs hk b hb)
  · intro x hx
    exact extract_bounded clusterer embed frames _ hcl x hx

/-- Witness for C1 at a concrete one-frame video with constant collaborators. -/
theorem claim_C1_witness :
    (extract_keyframes (fun fs => List.replicate fs.length 0) (fun _ => ([] : Vec)) [(0 : ℕ)]
      (detect_shot_boundaries (fun c : List ℕ => c.map (fun _ => (0 : ℚ))) [0]
        (1 / 2) 32).1).Sorted (· < ·) ∧
    ∀ x ∈ extract_keyframes (fun fs => List.replicate fs.length 0) (fun _ => ([] : Vec))
      [(0 : ℕ)] (detect_shot_boundaries (fun c : List ℕ => c.map (fun _ => (0 : ℚ))) [0]
        (1 / 2) 32).1, x < ([(0 : ℕ)] : List ℕ).length :=
  claim_C1 (fun c : List ℕ => c.map (fun _ => (0 : ℚ))) (fun fs => List.replicate fs.length 0)
    (fun _ => ([] : Vec)) [0] (1 / 2) 32 (fun c => by simp) (fun fs => by simp) (by norm_num)

/-- C2: in each of the four degenerate situations — (a) fewer frames than
`min_cluster_size` (= 60, the source default), (b) exactly one feature vector,
(c) every frame labelled noise by the clusterer, (d) exactly one non-noise
cluster with no noise frames — the selector returns exactly one keyframe: the
first (and, the indices being sorted, lowest) frame index of the shot.  In
cases (a) and (c) this emerges from the degenerate loop (the "centroid" slot
holds the raw features, so the first frame is at distance 0 from
`centroids[0]` and wins the argmin); in (b) and (d) the shortcut fires. -/
theorem claim_C2 {F : Type} (clusterer : List Vec → List ℤ) (sf : List F)
    (feats : List Vec) (idxs : List ℕ)
    (hlab : (clusterer feats).length = feats.length)
    (hlen : feats.length = idxs.length) (hne : feats ≠ [])
    (hsorted : idxs.Sorted (· ≤ ·))
    (hcond : feats.length < 60 ∨ feats.length = 1 ∨
      (60 ≤ feats.length ∧ (clusterer feats).all (fun lab => decide (lab = -1)) = true) ∨
      (60 ≤ feats.length ∧ (clusterer feats).all (fun lab => decide (lab ≠ -1)) = true ∧
        (npUnique ((clusterer feats).filter (fun lab => decide (lab ≠ -1)))).length = 1)) :
    select_keyframes clusterer sf feats idxs = [idxs.headI] ∧
    ∀ x ∈ idxs, idxs.headI ≤ x := by
  have hidxne : idxs ≠ [] := by
    intro h0
    rw [h0] at hlen
    simp at hlen
    exact hne hlen
  have hfirst : ∀ x ∈ idxs, idxs.headI ≤ x := by
    cases idxs with
    | nil => simp at hidxne
    | cons a tl =>
        intro x hx
        rw [List.headI_cons]
        rcases List.mem_cons.mp hx with h0 | h0
        · omega
        · exact (List.sorted_cons.mp hsorted).1 x h0
  refine ⟨?_, hfirst⟩
  rcases hcond with hsmall | hone | ⟨hge, hallnoise⟩ | ⟨hge, hallpos, hk1⟩
  · exact select_of_replicate clusterer sf feats idxs (adaptive_small _ _ _ hsmall) hne hlen
  · exact select_shortcut _ _ _ _ (Or.inl hone)
  · exact select_of_replicate clusterer sf feats idxs
      (adaptive_allnoise _ _ _ (by omega) hallnoise) hne hlen
  · have hlne : clusterer feats ≠ [] := by
      intro h0
      rw [h0] at hlab
      simp at hlab
      omega
    have hnoise : (clusterer feats).all (fun lab => decide (lab = -1)) = false := by
      obtain ⟨x, hx⟩ := List.exists_mem_of_ne_nil _ hlne
      have hx2 := (List.all_eq_true.mp hallpos) x hx
      rw [List.all_eq_false]
      refine ⟨x, hx, ?_⟩
      simp only [decide_eq_true_eq] at hx2 ⊢
      simpa using hx2
    have hadapt := adaptive_normal clusterer feats 60 (by omega) hnoise
    apply select_shortcut
    right
    constructor
    · rw [hadapt]
      simpa using hk1
    · rw [hadapt]
      exact hallpos

/-- Witness for C2 at a concrete two-frame shot (case (a): too few frames). -/
theorem claim_C2_witness :
    select_keyframes (fun fs : List Vec => List.replicate fs.length 0) ([7, 8] : List ℕ)
      [[0], [1]] [5, 6] = [([5, 6] : List ℕ).headI] ∧
    ∀ x ∈ ([5, 6] : List ℕ), ([5, 6] : List ℕ).headI ≤ x :=
  claim_C2 (fun fs : List Vec => List.replicate fs.length 0) ([7, 8] : List ℕ)
    [[0], [1]] [5, 6] (by simp) (by simp) (by simp) (by decide) (Or.inl (by simp))

/-- C10: the selector returns a non-empty list on every code path (every path
either appends the shot's first index or one pick per existing cluster), and
consequently a non-empty video run through the full pipeline yields a
non-empty keyframe list. -/
theorem claim_C10 {F : Type} (scorer : List F → List ℚ) (clusterer : List Vec → List ℤ)
    (embed : F → Vec) (frames : List F) (t : ℚ) (k : ℕ)
    (hs : ∀ c, (scorer c).length = c.length) (hk : 0 < k) (hne : frames ≠ []) :
    (∀ (sf : List F) (feats : List Vec) (idxs : List ℕ),
      select_keyframes clusterer sf feats idxs ≠ []) ∧
    extract_keyframes clusterer embed frames
      (detect_shot_boundaries scorer frames t k).1 ≠ [] := by
  refine ⟨fun sf feats idxs => select_ne_nil clusterer sf feats idxs, ?_⟩
  exact extract_ne_nil clusterer embed frames _
    (fun b hb => detect_fst_lt scorer frames t k hs hk b hb) hne

/-- Witness for C10 at a concrete one-frame video. -/
theorem claim_C10_witness :
    (∀ (sf : List ℕ) (feats : List Vec) (idxs : List ℕ),
      select_keyframes (fun fs => List.replicate fs.length 0) sf feats idxs ≠ []) ∧
    extract_keyframes (fun fs => List.replicate fs.length 0) (fun _ => ([] : Vec)) [(0 : ℕ)]
      (detect_shot_boundaries (fun c : List ℕ => c.map (fun _ => (0 : ℚ))) [0]
        (1 / 2) 32).1 ≠ [] :=
  claim_C10 (fun c : List ℕ => c.map (fun _ => (0 : ℚ))) (fun fs => List.replicate fs.length 0)
    (fun _ => ([] : Vec)) [0] (1 / 2) 32 (fun c => by simp) (by norm_num) (by simp)

/-- C8: the request handler is total — every request yields either a success
payload (some boundary list, some keyframe list, no message) or an error
payload (null boundaries and keyframes, some message); and a zero-frame video
is a success with empty boundaries and empty keyframes, not an error. -/
theorem claim_C8 {F : Type} (scorer : List F → Except String (List ℚ))
    (embed : F → Except String Vec) (clusterer : List Vec → List ℤ)
    (saver : String → List ℕ → Except String Unit)
    (video : Except String (List F)) (od : Option String) :
    ((∃ bs kfs, handleRequest scorer embed clusterer saver video od =
        ⟨"success", some bs, some kfs, none⟩) ∨
      (∃ m, handleRequest scorer embed clusterer saver video od =
        ⟨"error", none, none, some m⟩)) ∧
    handleRequest scorer embed clusterer saver (.ok ([] : List F)) none =
      ⟨"success", some [], some [], none⟩ :=
  ⟨handleRequest_cases scorer embed clusterer saver video od,
    handleRequest_emptyVideo scorer embed clusterer saver⟩

/-- C9 counterexample: the side-output sink is invoked inside the handler's
`try` block, so a failing save (e.g. an unwritable output directory — in the
source, `os.makedirs`/`cv2.imwrite` raising) flips the payload to an error
even though extraction succeeded: supplying an `output_directory` does affect
the returned payload. -/
theorem claim_C9_counterexample :
    (handleRequest (fun fs : List ℕ => Except.ok (fs.map (fun _ => (0 : ℚ))))
        (fun _ => Except.ok ([] : Vec)) (fun fs => List.replicate fs.length 0)
        (fun _ _ => Except.error "disk full") (.ok [0]) (some "out")).status = "error" ∧
    (handleRequest (fun fs : List ℕ => Except.ok (fs.map (fun _ => (0 : ℚ))))
        (fun _ => Except.ok ([] : Vec)) (fun fs => List.replicate fs.length 0)
        (fun _ _ => Except.error "disk full") (.ok [0]) none).status = "success" := by
  have hdet : detectE (fun fs : List ℕ => Except.ok (fs.map (fun _ => (0 : ℚ)))) [0]
      (1 / 2) 32 = .ok ([], [0]) := by
    rw [detectE_singleton, boundariesOf_singleton, if_neg (by norm_num)]
  have hext : extractE (fun fs => List.replicate fs.length 0)
      (fun _ : ℕ => Except.ok ([] : Vec)) [0] [] = .ok [0] := rfl
  have hsv : saveStep (fun _ _ => (Except.error "disk full" : Except String Unit))
      (some "out") ([] : List ℕ) [0] = .error "disk full" := rfl
  constructor
  · rw [handleRequest_of_save_error _ _ _ _ [0] ([], [0]) [0] "out" "disk full" hdet hext hsv]
  · rw [handleRequest_of_ok _ _ _ _ [0] ([], [0]) [0] hdet hext]

/-- C9 (amended): when every save succeeds, supplying an output directory
changes nothing — the whole response (status, boundaries, keyframes, message)
is the one computed without a side-output sink.  The original claim holds only
under this proviso: a failing save turns the payload into an error. -/
theorem claim_C9_amended {F : Type} (scorer : List F → Except String (List ℚ))
    (embed : F → Except String Vec) (clusterer : List Vec → List ℤ)
    (saver : String → List ℕ → Except String Unit)
    (hsave : ∀ d bs, saver d bs = .ok ())
    (video : Except String (List F)) (od : Option String) :
    handleRequest scorer embed clusterer saver video od =
      handleRequest scorer embed clusterer saver video none :=
  handleRequest_saver_irrelevant scorer embed clusterer saver hsave video od

/-- Witness for C9 (amended) at a concrete one-frame video with an
always-succeeding sink. -/
theorem claim_C9_amended_witness :
    handleRequest (fun _ : List ℕ => Except.ok ([] : List ℚ))
        (fun _ => Except.ok ([] : Vec)) (fun fs => List.replicate fs.length 0)
        (fun _ _ => Except.ok ()) (.ok ([0] : List ℕ)) (some "out") =
      handleRequest (fun _ : List ℕ => Except.ok ([] : List ℚ))
        (fun _ => Except.ok ([] : Vec)) (fun fs => List.replicate fs.length 0)
        (fun _ _ => Except.ok ()) (.ok ([0] : List ℕ)) none :=
  claim_C9_amended (fun _ : List ℕ => Except.ok ([] : List ℚ))
    (fun _ => Except.ok ([] : Vec)) (fun fs => List.replicate fs.length 0)
    (fun _ _ => Except.ok ()) (fun d bs => rfl) (.ok ([0] : List ℕ)) (some "out")

/-- C3: for a shot with at least `min_cluster_size` (= 60) frames whose
clustering is neither all-noise nor a single noise-free cluster, the selector
returns exactly one keyframe per distinct non-noise label, sorted strictly
ascending, and each returned index is the shot index of the member frame
nearest (in Euclidean distance, encoded by the monotone-equivalent squared
distance `sqDist`) to its cluster's centroid, ties broken by the lowest
position — `isClosestMember` states exactly that characterization. -/
theorem claim_C3 {F : Type} (clusterer : List Vec → List ℤ) (sf : List F)
    (feats : List Vec) (idxs : List ℕ)
    (hlab : (clusterer feats).length = feats.length)
    (hlen : feats.length = idxs.length)
    (hnd : idxs.Nodup)
    (hge : 60 ≤ feats.length)
    (hnoise : (clusterer feats).all (fun lab => decide (lab = -1)) = false)
    (hns : ¬((npUnique ((clusterer feats).filter (fun lab => decide (lab ≠ -1)))).length = 1 ∧
      (clusterer feats).all (fun lab => decide (lab ≠ -1)) = true)) :
    (select_keyframes clusterer sf feats idxs).length =
      (npUnique ((clusterer feats).filter (fun lab => decide (lab ≠ -1)))).length ∧
    (select_keyframes clusterer sf feats idxs).Sorted (· < ·) ∧
    (∀ cid ∈ npUnique ((clusterer feats).filter (fun lab => decide (lab ≠ -1))),
      ∃ j, isClosestMember (clusterer feats) feats cid j ∧
        idxs.getD j 0 ∈ select_keyframes clusterer sf feats idxs) ∧
    (∀ x ∈ select_keyframes clusterer sf feats idxs,
      ∃ cid ∈ npUnique ((clusterer feats).filter (fun lab => decide (lab ≠ -1))),
        ∃ j, isClosestMember (clusterer feats) feats cid j ∧ x = idxs.getD j 0) := by
  have hadapt := adaptive_normal clusterer feats 60 (by omega) hnoise
  have hlabels : (adaptive_clustering clusterer feats 60).1 = clusterer feats := by
    rw [hadapt]
  have hcentroids : (adaptive_clustering clusterer feats 60).2 =
      (npUnique ((clusterer feats).filter (fun lab => decide (lab ≠ -1)))).map
        (fun lab => clusterCentroid (clusterer feats) feats lab) := by
    rw [hadapt]
  have h1 : ¬(feats.length = 1 ∨ ((adaptive_clustering clusterer feats 60).2.length = 1 ∧
      (adaptive_clustering clusterer feats 60).1.all (fun lab => decide (lab ≠ -1)) = true)) := by
    intro hcontra
    rcases hcontra with hone | ⟨hlen1, hall⟩
    · omega
    · refine hns ⟨?_, ?_⟩
      · rw [hcentroids] at hlen1
        simpa using hlen1
      · rw [hlabels] at hall
        exact hall
  have hKne : npUnique ((adaptive_clustering clusterer feats 60).1.filter
      (fun lab => decide (lab ≠ -1))) ≠ [] := by
    rw [hlabels]
    exact npUnique_ne_nil _ (exists_nonnoise _ hnoise)
  have hsel := select_loop clusterer sf feats idxs h1 hKne
  rw [hlabels, hcentroids] at hsel
  have hmapeq : (npUnique ((clusterer feats).filter (fun lab => decide (lab ≠ -1)))).map
      (fun cid => idxs.getD ((memberPositions (clusterer feats) cid).getD
        (npArgmin ((memberPositions (clusterer feats) cid).map
          (fun i => sqDist (feats.getD i [])
            (((npUnique ((clusterer feats).filter (fun lab => decide (lab ≠ -1)))).map
              (fun lab => clusterCentroid (clusterer feats) feats lab)).getD
              ((npUnique ((clusterer feats).filter
                (fun lab => decide (lab ≠ -1)))).indexOf cid) [])))) 0) 0) =
      (npUnique ((clusterer feats).filter (fun lab => decide (lab ≠ -1)))).map
        (fun cid => idxs.getD ((memberPositions (clusterer feats) cid).getD
          (npArgmin ((memberPositions (clusterer feats) cid).map
            (fun i => sqDist (feats.getD i [])
              (clusterCentroid (clusterer feats) feats cid)))) 0) 0) := by
    apply List.map_congr_left
    intro cid hcid
    rw [getD_map_indexOf _ _ cid hcid []]
  rw [hmapeq] at hsel
  refine ⟨?_, select_sorted clusterer sf feats idxs hlab hlen hnd, ?_, ?_⟩
  · rw [hsel, (List.perm_insertionSort _ _).length_eq, List.length_map]
  · intro cid hcid
    have hmplne : memberPositions (clusterer feats) cid ≠ [] :=
      memberPositions_ne_nil _ _ (List.mem_filter.mp ((mem_npUnique _ _).mp hcid)).1
    refine ⟨(memberPositions (clusterer feats) cid).getD
      (npArgmin ((memberPositions (clusterer feats) cid).map
        (fun i => sqDist (feats.getD i [])
          (clusterCentroid (clusterer feats) feats cid)))) 0,
      closest_isClosestMember _ _ _ hmplne, ?_⟩
    rw [hsel, List.mem_insertionSort]
    exact List.mem_map_of_mem _ hcid
  · intro x hx
    rw [hsel, List.mem_insertionSort] at hx
    obtain ⟨cid, hcid, heq⟩ := List.mem_map.mp hx
    have hmplne : memberPositions (clusterer feats) cid ≠ [] :=
      memberPositions_ne_nil _ _ (List.mem_filter.mp ((mem_npUnique _ _).mp hcid)).1
    exact ⟨cid, hcid, (memberPositions (clusterer feats) cid).getD
      (npArgmin ((memberPositions (clusterer feats) cid).map
        (fun i => sqDist (feats.getD i [])
          (clusterCentroid (clusterer feats) feats cid)))) 0,
      closest_isClosestMember _ _ _ hmplne, heq.symm⟩

/-- Witness for C3: a 60-frame shot whose clusterer yields two noise-free
clusters (labels: thirty 0s then thirty 1s). -/
theorem claim_C3_witness :
    (select_keyframes (fun fs => List.replicate 30 (0 : ℤ) ++ List.replicate (fs.length - 30) 1)
      (List.range 60) (List.replicate 60 ([] : Vec)) (List.range 60)).length =
      (npUnique (((fun fs : List Vec => List.replicate 30 (0 : ℤ) ++
        List.replicate (fs.length - 30) 1) (List.replicate 60 ([] : Vec))).filter
        (fun lab => decide (lab ≠ -1)))).length ∧
    (select_keyframes (fun fs => List.replicate 30 (0 : ℤ) ++ List.replicate (fs.length - 30) 1)
      (List.range 60) (List.replicate 60 ([] : Vec)) (List.range 60)).Sorted (· < ·) ∧
    (∀ cid ∈ npUnique (((fun fs : List Vec => List.replicate 30 (0 : ℤ) ++
        List.replicate (fs.length - 30) 1) (List.replicate 60 ([] : Vec))).filter
        (fun lab => decide (lab ≠ -1))),
      ∃ j, isClosestMember ((fun fs : List Vec => List.replicate 30 (0 : ℤ) ++
          List.replicate (fs.length - 30) 1) (List.replicate 60 ([] : Vec)))
          (List.replicate 60 ([] : Vec)) cid j ∧
        (List.range 60).getD j 0 ∈ select_keyframes
          (fun fs => List.replicate 30 (0 : ℤ) ++ List.replicate (fs.length - 30) 1)
          (List.range 60) (List.replicate 60 ([] : Vec)) (List.range 60)) ∧
    (∀ x ∈ select_keyframes
        (fun fs => List.replicate 30 (0 : ℤ) ++ List.replicate (fs.length - 30) 1)
        (List.range 60) (List.replicate 60 ([] : Vec)) (List.range 60),
      ∃ cid ∈ npUnique (((fun fs : List Vec => List.replicate 30 (0 : ℤ) ++
          List.replicate (fs.length - 30) 1) (List.replicate 60 ([] : Vec))).filter
          (fun lab => decide (lab ≠ -1))),
        ∃ j, isClosestMember ((fun fs : List Vec => List.replicate 30 (0 : ℤ) ++
            List.replicate (fs.length - 30) 1) (List.replicate 60 ([] : Vec)))
            (List.replicate 60 ([] : Vec)) cid j ∧ x = (List.range 60).getD j 0) :=
  claim_C3 (fun fs => List.replicate 30 (0 : ℤ) ++ List.replicate (fs.length - 30) 1)
    (List.range 60) (List.replicate 60 ([] : Vec)) (List.range 60)
    (by simp) rfl (List.nodup_range 60) (by norm_num) (by decide) (by decide)

end KFE
